import Mathlib

/-!
Verification of the txt-to-EPUB generator (epub.py).

The program's text processing is modelled over lists of characters:
a Python str is embedded as a Lean list of Char, Python's
str.split over a single newline as splitNl, str.strip as pyStrip, and the
four chapter-marker regular expressions as executable Boolean scanners that
reproduce the backtracking behaviour of re.match on the given patterns.
-/

namespace Epub

/-- Whitespace characters stripped by Python str.strip (ASCII part). -/
def isWS (c : Char) : Bool :=
  c == ' ' || c == '\t' || c == '\n' || c == '\r' || c == '\x0b' || c == '\x0c'

/-- Drop leading whitespace, as the left half of str.strip. -/
def stripL (s : List Char) : List Char := s.dropWhile isWS

/-- Drop trailing whitespace, as the right half of str.strip. -/
def stripR (s : List Char) : List Char := (s.reverse.dropWhile isWS).reverse

/-- Python str.strip(): remove leading and trailing whitespace. -/
def pyStrip (s : List Char) : List Char := stripR (stripL s)

/-- Helper for splitNl: prepend a character to the first piece. -/
def consHead (c : Char) : List (List Char) → List (List Char)
  | [] => [[c]]
  | h :: t => (c :: h) :: t

/-- Python str.split over a single newline: always at least one piece. -/
def splitNl : List Char → List (List Char)
  | [] => [[]]
  | c :: rest => if c = '\n' then [] :: splitNl rest else consHead c (splitNl rest)

/-- Python chr(10).join over a list of pieces. -/
def joinNl : List (List Char) → List Char
  | [] => []
  | [l] => l
  | l :: ls => l ++ '\n' :: joinNl ls

/-- Characters accepted by the regex class of the first chapter pattern:
Chinese numerals plus decimal digits. -/
def isChNum (c : Char) : Bool :=
  c == '一' || c == '二' || c == '三' || c == '四' || c == '五' ||
  c == '六' || c == '七' || c == '八' || c == '九' || c == '十' ||
  c == '百' || c == '千' || c == '万' || c.isDigit

/-- Scanner tail for pattern 1: after at least one numeral, a maximal numeral
run must be followed by the chapter character. -/
def zhangAfter : List Char → Bool
  | [] => false
  | c :: rest => if isChNum c then zhangAfter rest else c == '章'

/-- Scanner for pattern 1 after the leading character: one-or-more numeral
class characters then the closing chapter character. -/
def numThenZhang : List Char → Bool
  | [] => false
  | c :: rest => isChNum c && zhangAfter rest

/-- Chapter marker pattern 1: a Chinese chapter heading matched from the
start of the line (prefix match). -/
def matchP1 : List Char → Bool
  | c :: rest => if c = '第' then numThenZhang rest else false
  | [] => false

/-- Chapter marker pattern 2: the word Chapter, optional whitespace, then at
least one digit (prefix match). -/
def matchP2 (l : List Char) : Bool :=
  if ("Chapter".data).isPrefixOf l then
    match (l.drop 7).dropWhile isWS with
    | c :: _ => c.isDigit
    | [] => false
  else false

/-- Scanner tail for pattern 3: a maximal digit run followed by a period. -/
def dotAfterDigits : List Char → Bool
  | [] => false
  | c :: rest => if c.isDigit then dotAfterDigits rest else c == '.'

/-- Chapter marker pattern 3: one-or-more digits then a period; the trailing
dot-star-dollar of the regex always succeeds on a newline-free line. -/
def matchP3 : List Char → Bool
  | c :: rest => c.isDigit && dotAfterDigits rest
  | [] => false

/-- Scanner tail for pattern 4: newline-free characters up to a final closing
bracket ending the line. -/
def bracketClose : List Char → Bool
  | [] => false
  | [c] => c == '】'
  | c :: rest => c != '\n' && bracketClose rest

/-- Chapter marker pattern 4: a whole line enclosed in CJK lenticular
brackets. -/
def matchP4 : List Char → Bool
  | c :: rest => if c = '【' then bracketClose rest else false
  | [] => false

/-- The four chapter-marker patterns in the fixed priority order of the
source list chapter_patterns. -/
def chapterPatterns : List (List Char → Bool) := [matchP1, matchP2, matchP3, matchP4]

/-- A trimmed line is a chapter marker when some pattern matches; the source
tests the patterns in order and stops at the first match. -/
def isChapterTitle (l : List Char) : Bool := chapterPatterns.any (fun p => p l)

/-- A chapter as accumulated by read_txt_file: title and raw body. -/
structure Chapter where
  title : List Char
  content : List Char
deriving DecidableEq

/-- The loop state of the chapter-scanning loop in read_txt_file. -/
structure SegState where
  chapters : List Chapter
  chapterTitle : List Char
  currentChapter : List Char
deriving DecidableEq

/-- Initial loop state: no chapters, placeholder front-matter title, empty
accumulator. -/
def initSegState : SegState :=
  { chapters := [], chapterTitle := "前言".data, currentChapter := [] }

/-- One iteration of the line loop of read_txt_file: strip the line; a blank
line appends a bare newline to the accumulator; a marker line flushes a
non-blank accumulator as a chapter and restarts accumulation under the new
title; any other line is appended with a trailing newline. -/
def segStep (st : SegState) (rawLine : List Char) : SegState :=
  let line := pyStrip rawLine
  if line = [] then
    { st with currentChapter := st.currentChapter ++ ['\n'] }
  else if isChapterTitle line then
    { chapters :=
        if pyStrip st.currentChapter = [] then st.chapters
        else st.chapters ++ [⟨st.chapterTitle, pyStrip st.currentChapter⟩],
      chapterTitle := line,
      currentChapter := [] }
  else
    { st with currentChapter := st.currentChapter ++ line ++ ['\n'] }

/-- Append the accumulating chapter to the chapter list when its stripped
content is non-blank: the flush step the source performs both at a marker
line and at end of input. -/
def flushChapters (st : SegState) : List Chapter :=
  if pyStrip st.currentChapter = [] then st.chapters
  else st.chapters ++ [⟨st.chapterTitle, pyStrip st.currentChapter⟩]

/-- The chapters produced by the scanning loop over the post-title text,
including the final flush of a non-blank accumulator. -/
def loopChapters (content : List Char) : List Chapter :=
  flushChapters ((splitNl content).foldl segStep initSegState)

/-- Chapter segmentation of read_txt_file: the loop result, or, when it is
empty, one synthetic chapter holding the whole post-title text trimmed. -/
def segmentChapters (bookTitle : List Char) (content : List Char) : List Chapter :=
  if loopChapters content = [] then [⟨bookTitle, pyStrip content⟩]
  else loopChapters content

/-- The default title set in the generator's constructor. -/
def defaultBookTitle : List Char := "未命名小说".data

/-- First line of the raw text, as indexed by the source after split. -/
def firstLine (raw : List Char) : List Char := (splitNl raw).headD []

/-- The text remaining after removing the title line, re-joined by newline
exactly as the source does. -/
def postTitleText (raw : List Char) : List Char := joinNl (splitNl raw).tail

/-- Title assignment of read_txt_file: the stripped first line, replaced by
the non-empty file stem when it is empty or still equals the constructor
default. -/
def extractTitle (raw : List Char) (stem : List Char) : List Char :=
  let t := pyStrip (firstLine raw)
  if t = [] ∨ t = defaultBookTitle then (if stem = [] then t else stem) else t

/-- read_txt_file after decoding: title extraction plus chapter
segmentation over the post-title text. -/
def readTxtFile (raw : List Char) (stem : List Char) : List Char × List Chapter :=
  let title := extractTitle raw stem
  (title, segmentChapters title (postTitleText raw))

/-- An image record as built by add_images. -/
structure Image where
  id : List Char
  path : List Char
  filename : List Char
deriving DecidableEq

/-- Image-related fields of the generator: the ordinary image list and the
single cover slot. -/
structure Collector where
  images : List Image
  coverImage : Option Image
deriving DecidableEq

/-- The supported image extensions of add_images. -/
def supportedFormats : List (List Char) :=
  [".jpg".data, ".jpeg".data, ".png".data, ".gif".data, ".bmp".data, ".webp".data]

/-- ASCII lowering, as Python str.lower acts on the ASCII range; CJK
characters are unaffected by both. -/
def lowerStr (str : List Char) : List Char := str.map Char.toLower

/-- pathlib Path(name).suffix for a bare directory entry: the final
dot-extension, empty when the dot is absent, leading, or trailing. -/
def pySuffix (name : List Char) : List Char :=
  let rev := name.reverse
  let ext := rev.takeWhile (fun c => c ≠ '.')
  if ext.length = rev.length then []
  else if ext.length = 0 then []
  else if ext.length = rev.length - 1 then []
  else '.' :: ext.reverse

/-- Python substring membership test: needle in haystack. -/
def isSub (needle : List Char) : List Char → Bool
  | [] => needle.isEmpty
  | c :: rest => needle.isPrefixOf (c :: rest) || isSub needle rest

/-- The extension filter of add_images, case-insensitive on the suffix. -/
def keepImageFile (f : List Char) : Bool :=
  supportedFormats.contains (lowerStr (pySuffix f))

/-- The cover-filename heuristic of add_images. -/
def coverMatch (f : List Char) : Bool :=
  isSub "cover".data (lowerStr f) || isSub "封面".data (lowerStr f)

/-- Sequential identifier given to the ordinary image occupying 0-based
position i, as computed from len(self.images) + 1 at append time. -/
def mkImgId (i : Nat) : List Char := "img_".data ++ (Nat.repr (i + 1)).data

/-- The body of the classification loop of add_images: a cover-named file
fills (and overwrites) the cover slot, any other file is appended to the
ordinary sequence with the next sequential identifier. -/
def addImagesStep (folder : List Char) (st : Collector) (file : List Char) : Collector :=
  let path := folder ++ '/' :: file
  if coverMatch file then
    { st with coverImage := some ⟨"cover".data, path, file⟩ }
  else
    { st with images := st.images ++ [⟨mkImgId st.images.length, path, file⟩] }

/-- The filtered, lexicographically sorted file list of add_images. -/
def sortedImageFiles (files : List (List Char)) : List (List Char) :=
  List.insertionSort (· ≤ ·) (files.filter keepImageFile)

/-- add_images over a directory listing: filter supported extensions, sort,
then classify each file in order. -/
def addImages (folder : List Char) (files : List (List Char)) (st : Collector) : Collector :=
  (sortedImageFiles files).foldl (addImagesStep folder) st

/-- Scanner tail for the title-tag regex: the non-close characters of a tag
body (at least one already seen) up to the closing angle bracket, returning
the remainder. -/
def tagClose : List Char → Option (List Char)
  | [] => none
  | c :: rest => if c = '>' then some rest else tagClose rest

/-- After an opening angle bracket: at least one non-close character, then
the closing bracket; none when the regex cannot match here. -/
def tagTail : List Char → Option (List Char)
  | [] => none
  | c :: rest => if c = '>' then none else tagClose rest

/-- Fuel-indexed scanner for re.sub removing every angle-bracket tag; the
fuel, instantiated with the input length, dominates the characters
consumed, so the zero-fuel arm is never reached on the wrapper below. -/
def stripTagsF : Nat → List Char → List Char
  | 0, l => l
  | _ + 1, [] => []
  | fuel + 1, c :: rest =>
    if c = '<' then
      match tagTail rest with
      | some rem => stripTagsF fuel rem
      | none => '<' :: stripTagsF fuel rest
    else c :: stripTagsF fuel rest

/-- re.sub removing every complete angle-bracket tag, leftmost first. -/
def stripTags (l : List Char) : List Char := stripTagsF l.length l

/-- The function _sanitize_title: remove all tags, then strip; the f-string wrap adds
nothing. -/
def sanitizeTitle (title : List Char) : List Char := pyStrip (stripTags title)

/-- Scanner tail for the div-open regex attribute group: any non-close
characters then the closing bracket, returning group text and remainder. -/
def attrsClose : List Char → Option (List Char × List Char)
  | [] => none
  | c :: rest =>
    if c = '>' then some ([], rest)
    else
      match attrsClose rest with
      | some (attrs, rem) => some (c :: attrs, rem)
      | none => none

/-- After a div opening: either an immediate closing bracket, or a
whitespace character followed by attributes and the closing bracket. -/
def divOpenTail : List Char → Option (List Char × List Char)
  | [] => none
  | c :: rest =>
    if c = '>' then some ([], rest)
    else if isWS c then
      match attrsClose rest with
      | some (attrs, rem) => some (c :: attrs, rem)
      | none => none
    else none

/-- Fuel-indexed scanner for the first re.sub of _sanitize_content: rename
every div opening tag to a section opening tag, keeping its attributes. -/
def divToSectionF : Nat → List Char → List Char
  | 0, l => l
  | _ + 1, [] => []
  | fuel + 1, '<' :: 'd' :: 'i' :: 'v' :: rest =>
    (match divOpenTail rest with
     | some (g, rem) => "<section".data ++ g ++ '>' :: divToSectionF fuel rem
     | none => '<' :: divToSectionF fuel ('d' :: 'i' :: 'v' :: rest))
  | fuel + 1, c :: rest => c :: divToSectionF fuel rest

/-- The div-opening rename pass of _sanitize_content. -/
def divToSection (l : List Char) : List Char := divToSectionF l.length l

/-- The second re.sub of _sanitize_content: rename every div closing tag. -/
def closeDivToSection : List Char → List Char
  | '<' :: '/' :: 'd' :: 'i' :: 'v' :: '>' :: rest => "</section>".data ++ closeDivToSection rest
  | c :: rest => c :: closeDivToSection rest
  | [] => []

/-- The function _sanitize_content: both renaming substitutions in source order. -/
def sanitizeContent (content : List Char) : List Char :=
  closeDivToSection (divToSection content)

/-- The spine item list of _create_content_opf: the cover page, one page per
ordinary image in order, then one page per chapter in order. -/
def spineItems (images : List Image) (chapters : List Chapter) : List (List Char) :=
  let s0 : List (List Char) := ["    <itemref idref=\"cover\"/>".data]
  let s1 := s0 ++ images.enum.map (fun p =>
    "    <itemref idref=\"image_page_".data ++ (Nat.repr (p.1 + 1)).data ++ "\"/>".data)
  s1 ++ chapters.enum.map (fun p =>
    "    <itemref idref=\"chapter_".data ++ (Nat.repr (p.1 + 1)).data ++ "\"/>".data)

/-- The spine reference of the cover page. -/
def coverRef : List Char := "    <itemref idref=\"cover\"/>".data

/-- The spine reference of the image page at 0-based position i. -/
def imgPageRef (i : Nat) : List Char :=
  "    <itemref idref=\"image_page_".data ++ (Nat.repr (i + 1)).data ++ "\"/>".data

/-- The spine reference of the chapter page at 0-based position i. -/
def chapterRef (i : Nat) : List Char :=
  "    <itemref idref=\"chapter_".data ++ (Nat.repr (i + 1)).data ++ "\"/>".data

/-- The manifest item list of _create_content_opf, in source append order;
the media-type guess of the standard library is passed in as a function. -/
def manifestItems (guessMime : List Char → Option (List Char)) (coverImage : Option Image)
    (images : List Image) (chapters : List Chapter) : List (List Char) :=
  let m0 : List (List Char) :=
    ["    <item id=\"cover\" href=\"cover.xhtml\" media-type=\"application/xhtml+xml\"/>".data,
     "    <item id=\"nav\" href=\"nav.xhtml\" media-type=\"application/xhtml+xml\" properties=\"nav\"/>".data]
  let m1 := m0 ++ images.enum.map (fun p =>
    "    <item id=\"image_page_".data ++ (Nat.repr (p.1 + 1)).data ++
    "\" href=\"image_page_".data ++ (Nat.repr (p.1 + 1)).data ++
    ".xhtml\" media-type=\"application/xhtml+xml\"/>".data)
  let m2 := m1 ++ chapters.enum.map (fun p =>
    "    <item id=\"chapter_".data ++ (Nat.repr (p.1 + 1)).data ++
    "\" href=\"chapter_".data ++ (Nat.repr (p.1 + 1)).data ++
    ".xhtml\" media-type=\"application/xhtml+xml\"/>".data)
  let m3 := m2 ++
    (match coverImage with
     | some ci =>
       ["    <item id=\"cover_img\" href=\"images/".data ++ ci.filename ++
        "\" media-type=\"".data ++ ((guessMime ci.path).getD "image/jpeg".data) ++ "\"/>".data]
     | none => [])
  let m4 := m3 ++ images.map (fun img =>
    "    <item id=\"".data ++ img.id ++ "\" href=\"images/".data ++ img.filename ++
    "\" media-type=\"".data ++ ((guessMime img.path).getD "image/jpeg".data) ++ "\"/>".data)
  m4 ++ ["    <item id=\"ncx\" href=\"toc.ncx\" media-type=\"application/x-dtbncx+xml\"/>".data]

/-- The package document of _create_content_opf; only the title passes
through _sanitize_title, all other metadata is embedded as given. -/
def contentOpf (guessMime : List Char → Option (List Char)) (bookTitle author bookId language date : List Char)
    (coverImage : Option Image) (images : List Image) (chapters : List Chapter) : List Char :=
  "<?xml version=\"1.0\" encoding=\"UTF-8\"?>\n<package xmlns=\"http://www.idpf.org/2007/opf\" unique-identifier=\"bookid\" version=\"3.0\">\n    <metadata xmlns:dc=\"http://purl.org/dc/elements/1.1/\" xmlns:opf=\"http://www.idpf.org/2007/opf\">\n        <dc:title>".data
  ++ sanitizeTitle bookTitle
  ++ "</dc:title>\n        <dc:creator>".data ++ author
  ++ "</dc:creator>\n        <dc:identifier id=\"bookid\">".data ++ bookId
  ++ "</dc:identifier>\n        <dc:language>".data ++ language
  ++ "</dc:language>\n        <dc:date>".data ++ date
  ++ "</dc:date>\n        ".data
  ++ (if coverImage.isSome then "<meta name=\x27cover\x27 content=\x27cover_img\x27/>".data else [])
  ++ "\n    </metadata>\n    <manifest>\n".data
  ++ joinNl (manifestItems guessMime coverImage images chapters)
  ++ "\n    </manifest>\n    <spine>\n".data
  ++ joinNl (spineItems images chapters)
  ++ "\n    </spine>\n</package>".data

/-- The cover page template of _create_content_opf before the sanitize
pass: it embeds the raw book title (twice) and the author. -/
def coverXhtmlRaw (bookTitle author : List Char) : List Char :=
  "<?xml version=\"1.0\" encoding=\"UTF-8\"?>\n<!DOCTYPE html>\n<html xmlns=\"http://www.w3.org/1999/xhtml\">\n<head>\n    <title>".data
  ++ bookTitle
  ++ "</title>\n    <style type=\"text/css\">\n        body \x7b\n            display: flex;\n            flex-direction: column;\n            justify-content: center;\n            align-items: center;\n            height: 100vh;\n            margin: 0;\n            padding: 0;\n            text-align: center;\n            font-family: serif;\n        \x7d\n        h1 \x7b\n            font-size: 3em;\n            color: #0066cc;\n            margin: 0.5em 0;\n            text-align: center;\n            font-weight: bold;\n        \x7d\n        .author \x7b\n            font-size: 1.2em;\n            color: #666;\n            margin-top: 1em;\n        \x7d\n        .book-info \x7b\n            text-align: center;\n            padding: 2em;\n        \x7d\n    </style>\n</head>\n<body>\n    <main class=\"book-info\">\n        <h1>".data
  ++ bookTitle
  ++ "</h1>\n        <p class=\"author\">".data
  ++ author
  ++ "</p>\n    </main>\n</body>\n</html>".data

/-- The cover page as written to disk: the template passed through
_sanitize_content. -/
def coverXhtml (bookTitle author : List Char) : List Char :=
  sanitizeContent (coverXhtmlRaw bookTitle author)

/-- One entry of the navMap of _create_toc_ncx; play_order always equals
the chapter index plus one since only chapters are enumerated. -/
def navPoint (i : Nat) (chapterTitle : List Char) : List Char :=
  "    <navPoint id=\"navpoint-".data ++ (Nat.repr (i + 1)).data
  ++ "\" playOrder=\"".data ++ (Nat.repr (i + 1)).data
  ++ "\">\n        <navLabel>\n            <text>".data ++ chapterTitle
  ++ "</text>\n        </navLabel>\n        <content src=\"chapter_".data
  ++ (Nat.repr (i + 1)).data ++ ".xhtml\"/>\n    </navPoint>".data

/-- The legacy navigation file of _create_toc_ncx; the document title is
embedded raw. -/
def tocNcx (bookTitle bookId : List Char) (chapters : List Chapter) : List Char :=
  "<?xml version=\"1.0\" encoding=\"UTF-8\"?>\n<ncx xmlns=\"http://www.daisy.org/z3986/2005/ncx/\" version=\"2005-1\">\n    <head>\n        <meta name=\"dtb:uid\" content=\"".data
  ++ bookId
  ++ "\"/>\n        <meta name=\"dtb:depth\" content=\"1\"/>\n        <meta name=\"dtb:totalPageCount\" content=\"0\"/>\n        <meta name=\"dtb:maxPageNumber\" content=\"0\"/>\n    </head>\n    <docTitle>\n        <text>".data
  ++ bookTitle
  ++ "</text>\n    </docTitle>\n    <navMap>\n".data
  ++ joinNl (chapters.enum.map (fun p => navPoint p.1 p.2.title))
  ++ "\n    </navMap>\n</ncx>".data

/-- One entry of the chapter list of _create_nav_xhtml. -/
def navItem (i : Nat) (chapterTitle : List Char) : List Char :=
  "        <li><a href=\"chapter_".data ++ (Nat.repr (i + 1)).data
  ++ ".xhtml\">".data ++ chapterTitle ++ "</a></li>".data

/-- The modern navigation document of _create_nav_xhtml; the document title
is embedded raw. -/
def navXhtml (bookTitle : List Char) (chapters : List Chapter) : List Char :=
  "<?xml version=\"1.0\" encoding=\"UTF-8\"?>\n<!DOCTYPE html>\n<html xmlns=\"http://www.w3.org/1999/xhtml\" xmlns:epub=\"http://www.idpf.org/2007/ops\">\n<head>\n    <title>".data
  ++ bookTitle
  ++ "</title>\n    <meta charset=\"utf-8\"/>\n</head>\n<body>\n    <nav epub:type=\"toc\" id=\"toc\">\n        <h1>目录</h1>\n        <ol>\n".data
  ++ joinNl (chapters.enum.map (fun p => navItem p.1 p.2.title))
  ++ "\n        </ol>\n    </nav>\n</body>\n</html>".data

/-- The paragraph list of _create_chapters_html: one paragraph element per
non-blank line of the chapter body, dropping inline image references. -/
def renderParagraphs (content : List Char) : List (List Char) :=
  (splitNl content).filterMap (fun l0 =>
    let l := pyStrip l0
    if l = [] then none
    else if "[图片".data.isPrefixOf l || "![".data.isPrefixOf l then none
    else some ("<p>".data ++ l ++ "</p>".data))

/-- One chapter page template of _create_chapters_html before the sanitize
pass; position 0 gets the page break directive and the raw document title
as a page heading. -/
def chapterXhtmlRaw (bookTitle : List Char) (chapter : Chapter) (i : Nat) : List Char :=
  "<?xml version=\"1.0\" encoding=\"UTF-8\"?>\n<!DOCTYPE html PUBLIC \"-//W3C//DTD XHTML 1.1//EN\" \"http://www.w3.org/TR/xhtml11/DTD/xhtml11.dtd\">\n<html xmlns=\"http://www.w3.org/1999/xhtml\">\n<head>\n    <title>".data
  ++ chapter.title
  ++ "</title>\n    <style type=\"text/css\">\n        body \x7b\n            font-family: serif;\n            line-height: 1.6;\n            margin: 1em 2em;\n        \x7d\n        .book-title \x7b\n            font-size: 2.5em;\n            color: #0066cc;\n            text-align: center;\n            border-bottom: 2px solid #0066cc;\n            padding-bottom: 0.5em;\n            margin: 1.5em 0 2em 0;\n            font-weight: bold;\n        \x7d\n        .chapter-title \x7b\n            font-size: 2em;\n            color: #0066cc;\n            text-align: center;\n            margin: 2em 0 1.5em 0;\n            font-weight: bold;\n            ".data
  ++ (if i = 0 then "page-break-before: always;".data else [])
  ++ "\n        \x7d\n        h1 \x7b\n            font-size: 2.5em;\n            color: #0066cc;\n            text-align: center;\n            border-bottom: 2px solid #0066cc;\n            padding-bottom: 0.5em;\n            margin: 1.5em 0 2em 0;\n            font-weight: bold;\n        \x7d\n        h2 \x7b\n            font-size: 2em;\n            color: #0066cc;\n            text-align: center;\n            margin: 2em 0 1.5em 0;\n            font-weight: bold;\n        \x7d\n        p \x7b\n            text-indent: 2em;\n            margin: 0.8em 0;\n            line-height: 1.8;\n        \x7d\n        section \x7b\n            display: block;\n            margin: 1em 0;\n        \x7d\n    </style>\n</head>\n<body>\n    ".data
  ++ (if i = 0 then "<h1 class=\"book-title\">".data ++ bookTitle ++ "</h1>".data else [])
  ++ "\n    <h1 class=\"chapter-title\">".data
  ++ chapter.title
  ++ "</h1>\n    ".data
  ++ joinNl (renderParagraphs chapter.content)
  ++ "\n</body>\n</html>".data

/-- One chapter page as written to disk: the template passed through
_sanitize_content. -/
def chapterXhtml (bookTitle : List Char) (chapter : Chapter) (i : Nat) : List Char :=
  sanitizeContent (chapterXhtmlRaw bookTitle chapter i)

/-- Join pieces, terminating each with a newline: the shape of the chapter
accumulator, which only ever grows by a stripped line plus newline or by a
bare newline. Used to state the accumulator invariant. -/
def joinLines (ps : List (List Char)) : List Char :=
  ps.foldr (fun p r => p ++ '\n' :: r) []

/-- Compression mode of an archive entry. -/
inductive Compression
  | stored
  | deflated
deriving DecidableEq

/-- One physical entry of the produced archive, in write order. -/
structure ZipEntry where
  arcname : List Char
  compression : Compression
deriving DecidableEq

/-- Archive path of a walked file given its directory relative to the
scratch root. -/
def arcPath (e : List Char × List Char) : List Char :=
  if e.1 = [] then e.2 else e.1 ++ '/' :: e.2

/-- The function _create_epub_zip: the mimetype entry is written first and stored; every
walked file except the mimetype follows with the default deflate
compression. The walk order of the scratch tree is a parameter. -/
def createEpubZip (walkFiles : List (List Char × List Char)) : List ZipEntry :=
  ⟨"mimetype".data, Compression.stored⟩ ::
    (walkFiles.filter (fun e => e.2 ≠ "mimetype".data)).map
      (fun e => ⟨arcPath e, Compression.deflated⟩)

/-- Run the sequence of packaging sub-steps of generate_epub inside the try
block: step k raises when fails k is true, otherwise it adds its files to
the scratch tree; the first failure aborts the rest. Returns success and
the scratch contents at exit from the try block. -/
def runEpubSteps (fails : Nat → Bool) : List (List (List Char)) → Nat → List (List Char) →
    Bool × List (List Char)
  | [], _, temp => (true, temp)
  | fs :: rest, k, temp =>
    if fails k then (false, temp) else runEpubSteps fails rest (k + 1) (temp ++ fs)

/-- Removal of the scratch directory by _cleanup_temp: removed with its
whole tree when present, left alone when absent. -/
def cleanupTemp : Option (List (List Char)) → Option (List (List Char))
  | some _ => none
  | none => none

/-- generate_epub: create the scratch tree, run the packaging steps, and on
both exits of the try block run the cleanup of the finally clause. The
first component tells whether packaging succeeded, the second is the
scratch directory afterwards. -/
def generateEpub (fails : Nat → Bool) (stepFiles : List (List (List Char))) :
    Bool × Option (List (List Char)) :=
  let temp0 : List (List Char) := ["META-INF".data, "OEBPS".data, "OEBPS/images".data]
  let r := runEpubSteps fails stepFiles 0 temp0
  (r.1, cleanupTemp (some r.2))

/-! ### Helper lemmas on stripping and line splitting -/

theorem dropWhile_head_false {p : Char → Bool} :
    ∀ {l : List Char} {c : Char}, (l.dropWhile p).head? = some c → p c = false := by
  intro l
  induction l with
  | nil => intro c h; simp [List.dropWhile] at h
  | cons a t ih =>
    intro c h
    rw [List.dropWhile_cons] at h
    by_cases hp : p a
    · rw [if_pos hp] at h; exact ih h
    · rw [if_neg hp] at h
      have hac : a = c := by simpa using h
      rw [← hac]
      exact (Bool.not_eq_true (p a)) ▸ hp

theorem dropWhile_eq_self_of_head {p : Char → Bool} {l : List Char}
    (h : ∀ c, l.head? = some c → p c = false) : l.dropWhile p = l := by
  cases l with
  | nil => rfl
  | cons a t => rw [List.dropWhile_cons]; simp [h a rfl]

theorem stripR_prefix (s : List Char) : stripR s <+: s := by
  have h : s.reverse.dropWhile isWS <:+ s.reverse := List.dropWhile_suffix isWS
  have h2 := List.reverse_prefix.mpr h
  simpa [stripR] using h2

theorem head?_pyStrip_false {s : List Char} {c : Char}
    (h : (pyStrip s).head? = some c) : isWS c = false := by
  have h' : (stripR (stripL s)).head? = some c := h
  rcases stripR_prefix (stripL s) with ⟨t, ht⟩
  have hh : (stripL s).head? = some c := by
    rw [← ht, List.head?_append, h']; rfl
  exact dropWhile_head_false hh

theorem reverse_pyStrip (s : List Char) :
    (pyStrip s).reverse = (stripL s).reverse.dropWhile isWS := by
  unfold pyStrip stripR
  simp

theorem getLast?_pyStrip_false {s : List Char} {c : Char}
    (h : (pyStrip s).getLast? = some c) : isWS c = false := by
  rw [← List.head?_reverse, reverse_pyStrip] at h
  exact dropWhile_head_false h

theorem stripL_pyStrip (s : List Char) : stripL (pyStrip s) = pyStrip s := by
  apply dropWhile_eq_self_of_head
  intro c hc
  exact head?_pyStrip_false hc

theorem stripR_pyStrip (s : List Char) : stripR (pyStrip s) = pyStrip s := by
  unfold stripR
  have h : (pyStrip s).reverse.dropWhile isWS = (pyStrip s).reverse := by
    apply dropWhile_eq_self_of_head
    intro c hc
    rw [List.head?_reverse] at hc
    exact getLast?_pyStrip_false hc
  rw [h, List.reverse_reverse]

theorem pyStrip_idem (s : List Char) : pyStrip (pyStrip s) = pyStrip s := by
  conv_lhs => rw [pyStrip]
  rw [stripL_pyStrip, stripR_pyStrip]

theorem pyStrip_sublist (s : List Char) : List.Sublist (pyStrip s) s := by
  have h1 : List.Sublist (stripL s) s := List.dropWhile_sublist isWS
  have h2 : List.Sublist (pyStrip s) (stripL s) := by
    have h3 := (List.dropWhile_sublist (l := (stripL s).reverse) isWS).reverse
    simpa [pyStrip, stripR] using h3
  exact h2.trans h1

theorem not_mem_pyStrip {s : List Char} {c : Char} (h : c ∉ s) : c ∉ pyStrip s :=
  fun hc => h ((pyStrip_sublist s).subset hc)

theorem consHead_ne_nil (c : Char) (ps : List (List Char)) : consHead c ps ≠ [] := by
  cases ps <;> simp [consHead]

theorem splitNl_cons (c : Char) (rest : List Char) :
    splitNl (c :: rest) =
      if c = '\n' then [] :: splitNl rest else consHead c (splitNl rest) := rfl

theorem splitNl_ne_nil (s : List Char) : splitNl s ≠ [] := by
  induction s with
  | nil => simp [splitNl]
  | cons c rest ih =>
    rw [splitNl_cons]
    by_cases hc : c = '\n'
    · simp [hc]
    · rw [if_neg hc]; exact consHead_ne_nil c _

theorem consHead_append (c : Char) {xs : List (List Char)} (h : xs ≠ []) (ys : List (List Char)) :
    consHead c (xs ++ ys) = consHead c xs ++ ys := by
  cases xs with
  | nil => exact absurd rfl h
  | cons x t => simp [consHead]

theorem splitNl_append (a b : List Char) :
    splitNl (a ++ '\n' :: b) = splitNl a ++ splitNl b := by
  induction a with
  | nil => simp [splitNl]
  | cons c rest ih =>
    rw [List.cons_append, splitNl_cons, splitNl_cons, ih]
    by_cases hc : c = '\n'
    · rw [if_pos hc, if_pos hc]
      rfl
    · rw [if_neg hc, if_neg hc]
      exact consHead_append c (splitNl_ne_nil rest) _

theorem splitNl_no_nl {s : List Char} : ∀ l ∈ splitNl s, '\n' ∉ l := by
  induction s with
  | nil =>
    intro l hl
    have h0 : l = [] := by simpa [splitNl] using hl
    simp [h0]
  | cons c rest ih =>
    intro l hl
    rw [splitNl_cons] at hl
    by_cases hc : c = '\n'
    · rw [if_pos hc] at hl
      rcases List.mem_cons.mp hl with h1 | h1
      · simp [h1]
      · exact ih l h1
    · rw [if_neg hc] at hl
      rcases hsp : splitNl rest with _ | ⟨h0, t0⟩
      · exact absurd hsp (splitNl_ne_nil rest)
      · rw [hsp, consHead] at hl
        rcases List.mem_cons.mp hl with h1 | h1
        · subst h1
          intro hmem
          rcases List.mem_cons.mp hmem with h2 | h2
          · exact hc h2.symm
          · exact ih h0 (by rw [hsp]; exact List.mem_cons_self _ _) h2
        · exact ih l (by rw [hsp]; exact List.mem_cons_of_mem _ h1)

theorem splitNl_of_no_nl {p : List Char} (h : '\n' ∉ p) : splitNl p = [p] := by
  induction p with
  | nil => rfl
  | cons c rest ih =>
    have hc : c ≠ '\n' := fun hcc => h (hcc ▸ List.mem_cons_self c rest)
    have hrest : '\n' ∉ rest := fun hm => h (List.mem_cons_of_mem c hm)
    rw [splitNl_cons, if_neg hc, ih hrest, consHead]

theorem joinLines_cons (p : List Char) (ps : List (List Char)) :
    joinLines (p :: ps) = p ++ '\n' :: joinLines ps := rfl

theorem joinLines_concat (ps : List (List Char)) (q : List Char) :
    joinLines (ps ++ [q]) = joinLines ps ++ q ++ ['\n'] := by
  induction ps with
  | nil => simp [joinLines]
  | cons p t ih => simp [joinLines_cons, ih]

theorem stripL_joinLines : ∀ ps : List (List Char), (∀ p ∈ ps, pyStrip p = p) →
    stripL (joinLines ps) = joinLines (ps.dropWhile List.isEmpty) := by
  intro ps
  induction ps with
  | nil => intro _; rfl
  | cons p rest ih =>
    intro hc
    have hrest : ∀ q ∈ rest, pyStrip q = q := fun q hq => hc q (List.mem_cons_of_mem _ hq)
    cases p with
    | nil =>
      have hL : stripL (joinLines (([] : List Char) :: rest)) = stripL (joinLines rest) := by
        rw [joinLines_cons]
        show ('\n' :: joinLines rest).dropWhile isWS = stripL (joinLines rest)
        rw [List.dropWhile_cons_of_pos (by decide)]
        rfl
      rw [hL, ih hrest, List.dropWhile_cons_of_pos (by simp)]
    | cons c p' =>
      have hpc : pyStrip (c :: p') = c :: p' := hc _ (List.mem_cons_self _ _)
      have hcWS : isWS c = false := head?_pyStrip_false (s := c :: p') (by rw [hpc]; rfl)
      have hL : stripL (joinLines ((c :: p') :: rest)) = joinLines ((c :: p') :: rest) := by
        rw [joinLines_cons]
        show ((c :: p') ++ '\n' :: joinLines rest).dropWhile isWS = _
        rw [List.cons_append, List.dropWhile_cons_of_neg (by simp [hcWS])]
      rw [hL, List.dropWhile_cons_of_neg (by simp)]

theorem lines_stripR_joinLines : ∀ qs : List (List Char),
    (∀ p ∈ qs, pyStrip p = p ∧ '\n' ∉ p) →
    ∀ l ∈ splitNl (stripR (joinLines qs)), l ∈ qs ∨ l = [] := by
  intro qs
  induction qs with
  | nil =>
    intro _ l hl
    right
    simpa [joinLines, stripR, splitNl] using hl
  | cons q rest ih =>
    intro hc l hl
    have hq := hc q (List.mem_cons_self _ _)
    have hrest : ∀ p ∈ rest, pyStrip p = p ∧ '\n' ∉ p :=
      fun p hp => hc p (List.mem_cons_of_mem _ hp)
    rw [joinLines_cons] at hl
    have hrev : (q ++ '\n' :: joinLines rest).reverse
        = (joinLines rest).reverse ++ '\n' :: q.reverse := by
      simp
    by_cases hE : ((joinLines rest).reverse.dropWhile isWS).isEmpty = true
    · have hdw : (q ++ '\n' :: joinLines rest).reverse.dropWhile isWS
          = q.reverse.dropWhile isWS := by
        rw [hrev, List.dropWhile_append, if_pos hE, List.dropWhile_cons_of_pos (by decide)]
      cases q with
      | nil =>
        right
        have hstr : stripR (([] : List Char) ++ '\n' :: joinLines rest) = [] := by
          unfold stripR
          rw [hdw]
          rfl
        rw [hstr] at hl
        simpa [splitNl] using hl
      | cons c q' =>
        left
        rcases hlast : (c :: q').getLast? with _ | d
        · exact absurd (List.getLast?_eq_none_iff.mp hlast) (by simp)
        · have hdWS : isWS d = false :=
            getLast?_pyStrip_false (s := c :: q') (by rw [hq.1]; exact hlast)
          have hrq : (c :: q').reverse.dropWhile isWS = (c :: q').reverse := by
            apply dropWhile_eq_self_of_head
            intro e he
            rw [List.head?_reverse, hlast] at he
            cases he
            exact hdWS
          have hstr : stripR ((c :: q') ++ '\n' :: joinLines rest) = c :: q' := by
            unfold stripR
            rw [hdw, hrq, List.reverse_reverse]
          rw [hstr, splitNl_of_no_nl hq.2] at hl
          have : l = c :: q' := by simpa using hl
          rw [this]
          exact List.mem_cons_self _ _
    · have hdw : (q ++ '\n' :: joinLines rest).reverse.dropWhile isWS
          = (joinLines rest).reverse.dropWhile isWS ++ '\n' :: q.reverse := by
        rw [hrev, List.dropWhile_append, if_neg hE]
      have hstr : stripR (q ++ '\n' :: joinLines rest)
          = q ++ '\n' :: stripR (joinLines rest) := by
        unfold stripR
        rw [hdw]
        simp
      rw [hstr, splitNl_append, splitNl_of_no_nl hq.2] at hl
      rcases List.mem_append.mp hl with h1 | h1
      · have : l = q := by simpa using h1
        exact Or.inl (this ▸ List.mem_cons_self _ _)
      · rcases ih hrest l h1 with h2 | h2
        · exact Or.inl (List.mem_cons_of_mem _ h2)
        · exact Or.inr h2

theorem lines_pyStrip_joinLines (ps : List (List Char))
    (hc : ∀ p ∈ ps, pyStrip p = p ∧ '\n' ∉ p) :
    ∀ l ∈ splitNl (pyStrip (joinLines ps)), l ∈ ps ∨ l = [] := by
  intro l hl
  have h1 : pyStrip (joinLines ps) = stripR (joinLines (ps.dropWhile List.isEmpty)) := by
    unfold pyStrip
    rw [stripL_joinLines ps (fun p hp => (hc p hp).1)]
  rw [h1] at hl
  have hsub : ∀ p ∈ ps.dropWhile List.isEmpty, pyStrip p = p ∧ '\n' ∉ p :=
    fun p hp => hc p ((List.dropWhile_sublist _).subset hp)
  rcases lines_stripR_joinLines _ hsub l hl with h | h
  · exact Or.inl ((List.dropWhile_sublist _).subset h)
  · exact Or.inr h

/-! ### The three branches of the scanning loop body -/

theorem isChapterTitle_nil : isChapterTitle [] = false := by decide

theorem segStep_blank {rawLine : List Char} (st : SegState) (h : pyStrip rawLine = []) :
    segStep st rawLine = { st with currentChapter := st.currentChapter ++ ['\n'] } := by
  unfold segStep
  rw [h]
  simp

theorem segStep_marker {rawLine : List Char} (st : SegState)
    (h : isChapterTitle (pyStrip rawLine) = true) :
    segStep st rawLine =
      { chapters := flushChapters st,
        chapterTitle := pyStrip rawLine,
        currentChapter := [] } := by
  have hne : pyStrip rawLine ≠ [] := by
    intro hnil
    rw [hnil, isChapterTitle_nil] at h
    exact Bool.false_ne_true h
  unfold segStep flushChapters
  rw [if_neg hne, if_pos h]

theorem segStep_text {rawLine : List Char} (st : SegState)
    (h1 : pyStrip rawLine ≠ [])
    (h2 : isChapterTitle (pyStrip rawLine) = false) :
    segStep st rawLine =
      { st with currentChapter := st.currentChapter ++ pyStrip rawLine ++ ['\n'] } := by
  unfold segStep
  rw [if_neg h1, if_neg (by rw [h2]; exact Bool.false_ne_true)]

/-! ### Loop invariants of the scanning loop -/

theorem flushChapters_clean {st : SegState}
    (h1 : ∀ ch ∈ st.chapters, ∀ l ∈ splitNl ch.content, isChapterTitle l = false)
    (h2 : ∃ ps, st.currentChapter = joinLines ps ∧
      ∀ p ∈ ps, pyStrip p = p ∧ '\n' ∉ p ∧ isChapterTitle p = false) :
    ∀ ch ∈ flushChapters st, ∀ l ∈ splitNl ch.content, isChapterTitle l = false := by
  rcases h2 with ⟨ps, hacc, hclean⟩
  intro ch hch l hl
  unfold flushChapters at hch
  by_cases hempty : pyStrip st.currentChapter = []
  · rw [if_pos hempty] at hch
    exact h1 ch hch l hl
  · rw [if_neg hempty] at hch
    rcases List.mem_append.mp hch with h | h
    · exact h1 ch h l hl
    · have he : ch = ⟨st.chapterTitle, pyStrip st.currentChapter⟩ := by simpa using h
      subst he
      dsimp at hl
      rw [hacc] at hl
      rcases lines_pyStrip_joinLines ps
          (fun p hp => ⟨(hclean p hp).1, (hclean p hp).2.1⟩) l hl with h2 | h2
      · exact (hclean l h2).2.2
      · rw [h2]; exact isChapterTitle_nil

theorem segInv : ∀ (lines : List (List Char)) (st : SegState),
    (∀ l ∈ lines, '\n' ∉ l) →
    (∀ ch ∈ st.chapters, ∀ l ∈ splitNl ch.content, isChapterTitle l = false) →
    (∃ ps, st.currentChapter = joinLines ps ∧
      ∀ p ∈ ps, pyStrip p = p ∧ '\n' ∉ p ∧ isChapterTitle p = false) →
    (∀ ch ∈ (lines.foldl segStep st).chapters, ∀ l ∈ splitNl ch.content,
        isChapterTitle l = false) ∧
    (∃ ps, (lines.foldl segStep st).currentChapter = joinLines ps ∧
      ∀ p ∈ ps, pyStrip p = p ∧ '\n' ∉ p ∧ isChapterTitle p = false) := by
  intro lines
  induction lines with
  | nil => intro st _ h1 h2; exact ⟨h1, h2⟩
  | cons raw rest ih =>
    intro st hnl h1 h2
    rw [List.foldl_cons]
    have hnlraw : '\n' ∉ raw := hnl raw (List.mem_cons_self _ _)
    have hnlrest : ∀ l ∈ rest, '\n' ∉ l := fun l hl => hnl l (List.mem_cons_of_mem _ hl)
    rcases h2 with ⟨ps, hacc, hclean⟩
    by_cases hb : pyStrip raw = []
    · rw [segStep_blank st hb]
      refine ih _ hnlrest ?_ ?_
      · exact h1
      · refine ⟨ps ++ [[]], ?_, ?_⟩
        · simp [joinLines_concat, hacc]
        · intro p hp
          rcases List.mem_append.mp hp with h | h
          · exact hclean p h
          · have hp0 : p = [] := by simpa using h
            subst hp0
            exact ⟨rfl, by simp, isChapterTitle_nil⟩
    · by_cases hm : isChapterTitle (pyStrip raw) = true
      · rw [segStep_marker st hm]
        apply ih _ hnlrest
        · intro ch hch
          exact flushChapters_clean h1 ⟨ps, hacc, hclean⟩ ch hch
        · exact ⟨[], rfl, by simp⟩
      · have hm' : isChapterTitle (pyStrip raw) = false := (Bool.not_eq_true _) ▸ hm
        rw [segStep_text st hb hm']
        refine ih _ hnlrest ?_ ?_
        · exact h1
        · refine ⟨ps ++ [pyStrip raw], ?_, ?_⟩
          · simp [joinLines_concat, hacc]
          · intro p hp
            rcases List.mem_append.mp hp with h | h
            · exact hclean p h
            · have hp0 : p = pyStrip raw := by simpa using h
              subst hp0
              exact ⟨pyStrip_idem raw, not_mem_pyStrip hnlraw, hm'⟩

theorem loopChapters_clean (content : List Char) :
    ∀ ch ∈ loopChapters content, ∀ l ∈ splitNl ch.content, isChapterTitle l = false := by
  have hInv := segInv (splitNl content) initSegState (fun l hl => splitNl_no_nl l hl)
    (by intro ch hch; simp [initSegState] at hch)
    ⟨[], rfl, by simp⟩
  exact flushChapters_clean hInv.1 hInv.2

theorem flushChapters_stripped {st : SegState}
    (h : ∀ ch ∈ st.chapters, pyStrip ch.content = ch.content) :
    ∀ ch ∈ flushChapters st, pyStrip ch.content = ch.content := by
  intro ch hch
  unfold flushChapters at hch
  by_cases hempty : pyStrip st.currentChapter = []
  · rw [if_pos hempty] at hch
    exact h ch hch
  · rw [if_neg hempty] at hch
    rcases List.mem_append.mp hch with h1 | h1
    · exact h ch h1
    · have he : ch = ⟨st.chapterTitle, pyStrip st.currentChapter⟩ := by simpa using h1
      rw [he]
      exact pyStrip_idem st.currentChapter

theorem segStrip_inv : ∀ (lines : List (List Char)) (st : SegState),
    (∀ ch ∈ st.chapters, pyStrip ch.content = ch.content) →
    ∀ ch ∈ (lines.foldl segStep st).chapters, pyStrip ch.content = ch.content := by
  intro lines
  induction lines with
  | nil => intro st h; exact h
  | cons raw rest ih =>
    intro st h
    rw [List.foldl_cons]
    apply ih
    by_cases hb : pyStrip raw = []
    · rw [segStep_blank st hb]; exact h
    · by_cases hm : isChapterTitle (pyStrip raw) = true
      · rw [segStep_marker st hm]
        exact flushChapters_stripped h
      · have hm' : isChapterTitle (pyStrip raw) = false := (Bool.not_eq_true _) ▸ hm
        rw [segStep_text st hb hm']
        exact h

/-! ### Claim C1 -/

/-- C1: segmentation always yields a non-empty chapter list; whenever the
scanning loop (with its final flush) produced no chapters, the result is
exactly one synthetic chapter whose title is the document title and whose
content is the trimmed post-title text. -/
theorem c1_segmentation_nonempty (bookTitle content : List Char) :
    segmentChapters bookTitle content ≠ [] ∧
    (loopChapters content = [] →
      segmentChapters bookTitle content = [⟨bookTitle, pyStrip content⟩]) := by
  constructor
  · unfold segmentChapters
    by_cases h : loopChapters content = []
    · rw [if_pos h]; simp
    · rw [if_neg h]; exact h
  · intro h
    unfold segmentChapters
    rw [if_pos h]

/-- Witness for C1 at the empty input, where the loop produces nothing and
the synthetic chapter appears. -/
theorem c1_segmentation_nonempty_witness :
    segmentChapters "T".data "".data ≠ [] ∧
    segmentChapters "T".data "".data = [⟨"T".data, pyStrip "".data⟩] :=
  ⟨(c1_segmentation_nonempty "T".data "".data).1,
   (c1_segmentation_nonempty "T".data "".data).2 (by decide)⟩

/-! ### Claim C10 -/

/-- C10: every chapter produced by segmentation, including the end-of-input
flush and the synthetic degenerate chapter, stores content equal to its
whitespace-trimmed form. -/
theorem c10_contents_trimmed (bookTitle content : List Char) (ch : Chapter)
    (h : ch ∈ segmentChapters bookTitle content) : pyStrip ch.content = ch.content := by
  unfold segmentChapters at h
  by_cases hc : loopChapters content = []
  · rw [if_pos hc] at h
    have he : ch = ⟨bookTitle, pyStrip content⟩ := by simpa using h
    rw [he]
    exact pyStrip_idem content
  · rw [if_neg hc] at h
    unfold loopChapters at h
    exact flushChapters_stripped
      (segStrip_inv _ initSegState (by intro c hcc; simp [initSegState] at hcc)) ch h

/-- Witness for C10 at a one-line document. -/
theorem c10_contents_trimmed_witness :
    pyStrip (Chapter.mk "前言".data "a".data).content = (Chapter.mk "前言".data "a".data).content :=
  c10_contents_trimmed "T".data "a".data ⟨"前言".data, "a".data⟩ (by decide)

/-! ### Claim C2 -/

/-- C2 counterexample: on a document whose post-title text is a single
marker line, the synthetic degenerate chapter stores the marker line inside
its content, so the marker appears in a chapter's content and no chapter is
titled by it. -/
theorem c2_marker_counterexample :
    isChapterTitle (pyStrip "第一章".data) = true ∧
    segmentChapters "T".data "第一章".data = [⟨"T".data, "第一章".data⟩] ∧
    (Chapter.mk "T".data "第一章".data) ∈ segmentChapters "T".data "第一章".data ∧
    "第一章".data ∈ splitNl (Chapter.mk "T".data "第一章".data).content ∧
    isChapterTitle "第一章".data = true := by
  refine ⟨by decide, by decide, by decide, by decide, by decide⟩

/-- C2 (amended): a line whose trimmed form is a marker flushes the current
chapter exactly when its trimmed accumulated content is non-blank, starts a
new chapter titled by the trimmed line with an empty accumulator, and no
chapter built by the scanning loop contains a marker line in its content;
only the degenerate synthetic chapter can. The sample marker line of the
specification is matched, by the first pattern. -/
theorem c2_marker_handling (st : SegState) (rawLine content : List Char) :
    (isChapterTitle (pyStrip rawLine) = true →
      segStep st rawLine =
        { chapters := st.chapters ++
            (if pyStrip st.currentChapter = [] then []
             else [⟨st.chapterTitle, pyStrip st.currentChapter⟩]),
          chapterTitle := pyStrip rawLine,
          currentChapter := [] }) ∧
    (∀ ch ∈ loopChapters content, ∀ l ∈ splitNl ch.content, isChapterTitle l = false) ∧
    isChapterTitle (pyStrip "第1章 开端".data) = true ∧
    matchP1 (pyStrip "第1章 开端".data) = true := by
  refine ⟨?_, loopChapters_clean content, by decide, by decide⟩
  intro hm
  rw [segStep_marker st hm]
  unfold flushChapters
  by_cases hempty : pyStrip st.currentChapter = []
  · rw [if_pos hempty, if_pos hempty, List.append_nil]
  · rw [if_neg hempty, if_neg hempty]

/-- Witness for C2: a concrete marker step flushing a non-blank accumulator,
and a concrete loop-produced chapter line that is no marker. -/
theorem c2_marker_handling_witness :
    segStep ⟨[], "前言".data, "intro\n".data⟩ "第二章".data =
      ⟨[⟨"前言".data, "intro".data⟩], "第二章".data, []⟩ ∧
    isChapterTitle "y".data = false := by
  constructor
  · have h := (c2_marker_handling ⟨[], "前言".data, "intro\n".data⟩ "第二章".data []).1 (by decide)
    rw [h]
    decide
  · exact (c2_marker_handling ⟨[], [], []⟩ [] "第一章 A\ny".data).2.1
      ⟨"第一章 A".data, "y".data⟩ (by decide) "y".data (by decide)

/-! ### Claim C3 -/

theorem enumFrom_map_fst_apply {α β : Type} (g : Nat → β) :
    ∀ (l : List α) (n : Nat),
      (List.enumFrom n l).map (fun p => g p.1) = (List.range' n l.length).map g := by
  intro l
  induction l with
  | nil => intro n; rfl
  | cons a t ih =>
    intro n
    simp only [List.enumFrom, List.length_cons, List.range', List.map_cons]
    rw [ih]

theorem enum_map_fst_apply {α β : Type} (g : Nat → β) (l : List α) :
    l.enum.map (fun p => g p.1) = (List.range l.length).map g := by
  rw [List.enum_eq_enumFrom, enumFrom_map_fst_apply, List.range_eq_range']

/-- C3: the spine lists the cover page first, then one image page per
ordinary image in collector order, then one chapter page per chapter in
detection order; with 2 ordinary images and 3 chapters this is exactly the
six itemrefs of the specification scenario. -/
theorem c3_spine_order (images : List Image) (chapters : List Chapter) :
    spineItems images chapters =
      coverRef :: ((List.range images.length).map imgPageRef ++
        (List.range chapters.length).map chapterRef) ∧
    (images.length = 2 → chapters.length = 3 →
      spineItems images chapters =
        [coverRef, imgPageRef 0, imgPageRef 1, chapterRef 0, chapterRef 1, chapterRef 2]) := by
  have him : images.enum.map
      (fun p => "    <itemref idref=\"image_page_".data ++ (Nat.repr (p.1 + 1)).data ++ "\"/>".data)
      = (List.range images.length).map imgPageRef := enum_map_fst_apply imgPageRef images
  have hch : chapters.enum.map
      (fun p => "    <itemref idref=\"chapter_".data ++ (Nat.repr (p.1 + 1)).data ++ "\"/>".data)
      = (List.range chapters.length).map chapterRef := enum_map_fst_apply chapterRef chapters
  have hmain : spineItems images chapters =
      coverRef :: ((List.range images.length).map imgPageRef ++
        (List.range chapters.length).map chapterRef) := by
    unfold spineItems
    rw [him, hch]
    simp [coverRef, List.append_assoc]
  refine ⟨hmain, ?_⟩
  intro h2 h3
  rw [hmain, h2, h3]
  rfl

/-- Witness for C3 at two concrete images and three concrete chapters. -/
theorem c3_spine_order_witness :
    spineItems
        [⟨"img_1".data, "p1".data, "a.png".data⟩, ⟨"img_2".data, "p2".data, "b.png".data⟩]
        [⟨"t1".data, "c1".data⟩, ⟨"t2".data, "c2".data⟩, ⟨"t3".data, "c3".data⟩] =
      [coverRef, imgPageRef 0, imgPageRef 1, chapterRef 0, chapterRef 1, chapterRef 2] :=
  (c3_spine_order
    [⟨"img_1".data, "p1".data, "a.png".data⟩, ⟨"img_2".data, "p2".data, "b.png".data⟩]
    [⟨"t1".data, "c1".data⟩, ⟨"t2".data, "c2".data⟩, ⟨"t3".data, "c3".data⟩]).2 rfl rfl

/-! ### Claim C4 -/

theorem addImages_cover : ∀ (files : List (List Char)) (folder : List Char) (st : Collector),
    (files.foldl (addImagesStep folder) st).coverImage =
      match (files.filter coverMatch).getLast? with
      | some f => some ⟨"cover".data, folder ++ '/' :: f, f⟩
      | none => st.coverImage := by
  intro files
  induction files with
  | nil => intro folder st; rfl
  | cons f t ih =>
    intro folder st
    rw [List.foldl_cons, ih]
    by_cases hc : coverMatch f = true
    · rw [List.filter_cons_of_pos hc]
      cases hlast : (t.filter coverMatch).getLast? with
      | none =>
        have ht : t.filter coverMatch = [] := List.getLast?_eq_none_iff.mp hlast
        rw [ht]
        simp [addImagesStep, hc]
      | some g =>
        have hne : t.filter coverMatch ≠ [] := by
          intro h0; rw [h0] at hlast; simp at hlast
        rcases List.exists_cons_of_ne_nil hne with ⟨x, xs, hxx⟩
        rw [hxx]
        rw [hxx] at hlast
        rw [List.getLast?_cons_cons, hlast]
    · rw [List.filter_cons_of_neg hc]
      cases (t.filter coverMatch).getLast? with
      | none => simp [addImagesStep, hc]
      | some g => rfl

theorem addImages_filenames : ∀ (files : List (List Char)) (folder : List Char) (st : Collector),
    (files.foldl (addImagesStep folder) st).images.map Image.filename =
      st.images.map Image.filename ++ files.filter (fun f => !coverMatch f) := by
  intro files
  induction files with
  | nil => intro folder st; simp
  | cons f t ih =>
    intro folder st
    rw [List.foldl_cons, ih]
    by_cases hc : coverMatch f = true
    · rw [List.filter_cons_of_neg (by simp [hc])]
      simp [addImagesStep, hc]
    · rw [List.filter_cons_of_pos (by simp [hc])]
      simp [addImagesStep, hc, List.append_assoc]

theorem addImages_ids : ∀ (files : List (List Char)) (folder : List Char) (st : Collector),
    st.images.map Image.id = (List.range st.images.length).map mkImgId →
    (files.foldl (addImagesStep folder) st).images.map Image.id =
      (List.range (files.foldl (addImagesStep folder) st).images.length).map mkImgId := by
  intro files
  induction files with
  | nil => intro folder st h; exact h
  | cons f t ih =>
    intro folder st h
    rw [List.foldl_cons]
    apply ih
    by_cases hc : coverMatch f = true
    · simpa [addImagesStep, hc] using h
    · rw [show addImagesStep folder st f =
          { st with images := st.images ++ [⟨mkImgId st.images.length, folder ++ '/' :: f, f⟩] }
        from by simp [addImagesStep, hc]]
      show (st.images ++ [(⟨mkImgId st.images.length, folder ++ '/' :: f, f⟩ : Image)]).map Image.id
          = (List.range
              (st.images ++ [(⟨mkImgId st.images.length, folder ++ '/' :: f, f⟩ : Image)]).length).map
            mkImgId
      rw [List.map_append, h, List.length_append]
      simp [List.range_succ]

/-- C4: the collector keeps exactly the supported extensions
(case-insensitively), sorts them, gives the cover slot to the last
cover-named file and excludes it from the ordinary sequence, appends every
other file in order with dense 1-based identifiers matching final position,
and on the specification example yields cover.png as cover with ordinary
sequence a.png, z.png. -/
theorem c4_collector (folder : List Char) (files : List (List Char)) :
    ((addImages folder files ⟨[], none⟩).images.map Image.id =
      (List.range (addImages folder files ⟨[], none⟩).images.length).map mkImgId) ∧
    ((addImages folder files ⟨[], none⟩).images.map Image.filename =
      (sortedImageFiles files).filter (fun f => !coverMatch f)) ∧
    ((addImages folder files ⟨[], none⟩).coverImage.map Image.filename =
      ((sortedImageFiles files).filter coverMatch).getLast?) ∧
    List.Sorted (· ≤ ·) (sortedImageFiles files) ∧
    (sortedImageFiles files).Perm (files.filter keepImageFile) ∧
    ((addImages "imgs".data ["cover.png".data, "a.png".data, "z.png".data]
        ⟨[], none⟩).coverImage.map Image.filename = some "cover.png".data ∧
      (addImages "imgs".data ["cover.png".data, "a.png".data, "z.png".data]
        ⟨[], none⟩).images.map Image.filename = ["a.png".data, "z.png".data] ∧
      keepImageFile "b.PNG".data = true ∧ keepImageFile "c.txt".data = false) := by
  refine ⟨?_, ?_, ?_, ?_, ?_, by decide, by decide, by decide, by decide⟩
  · exact addImages_ids (sortedImageFiles files) folder ⟨[], none⟩ (by simp)
  · rw [addImages, addImages_filenames]
    simp
  · rw [addImages, addImages_cover]
    cases ((sortedImageFiles files).filter coverMatch).getLast? with
    | none => rfl
    | some g => rfl
  · exact List.sorted_insertionSort _ _
  · exact List.perm_insertionSort _ _

/-! ### Claim C5 -/

/-- C5: the first physical archive entry is the mimetype declaration,
stored without compression; every other entry — the walked scratch files
minus the already-written mimetype — follows with deflate compression. -/
theorem c5_zip_layout (walkFiles : List (List Char × List Char)) :
    (createEpubZip walkFiles).head? = some ⟨"mimetype".data, Compression.stored⟩ ∧
    (∀ e ∈ (createEpubZip walkFiles).tail, e.compression = Compression.deflated) ∧
    ((createEpubZip walkFiles).tail.map ZipEntry.arcname =
      (walkFiles.filter (fun e => e.2 ≠ "mimetype".data)).map arcPath) := by
  refine ⟨rfl, ?_, ?_⟩
  · intro e he
    unfold createEpubZip at he
    rw [List.tail_cons] at he
    rcases List.mem_map.mp he with ⟨x, _, hx⟩
    rw [← hx]
  · unfold createEpubZip
    rw [List.tail_cons, List.map_map]
    rfl

/-- Witness for C5 on a two-file walk containing the mimetype itself. -/
theorem c5_zip_layout_witness :
    (createEpubZip [("".data, "mimetype".data), ("OEBPS".data, "content.opf".data)]).head? =
      some ⟨"mimetype".data, Compression.stored⟩ ∧
    (ZipEntry.mk "OEBPS/content.opf".data Compression.deflated).compression =
      Compression.deflated :=
  ⟨(c5_zip_layout [("".data, "mimetype".data), ("OEBPS".data, "content.opf".data)]).1,
   (c5_zip_layout [("".data, "mimetype".data), ("OEBPS".data, "content.opf".data)]).2.1
     ⟨"OEBPS/content.opf".data, Compression.deflated⟩ (by decide)⟩

/-! ### Claim C9 -/

theorem runEpubSteps_ok : ∀ (stepFiles : List (List (List Char))) (fails : Nat → Bool)
    (k : Nat) (temp : List (List Char)),
    ((runEpubSteps fails stepFiles k temp).1 = false ↔
      ∃ i, i < stepFiles.length ∧ fails (k + i) = true) := by
  intro stepFiles
  induction stepFiles with
  | nil =>
    intro fails k temp
    simp [runEpubSteps]
  | cons fs rest ih =>
    intro fails k temp
    have hstep : runEpubSteps fails (fs :: rest) k temp =
        if fails k = true then (false, temp)
        else runEpubSteps fails rest (k + 1) (temp ++ fs) := rfl
    by_cases h : fails k = true
    · rw [hstep, if_pos h]
      constructor
      · intro _; exact ⟨0, by simp, by simpa using h⟩
      · intro _; rfl
    · rw [hstep, if_neg h, ih]
      constructor
      · rintro ⟨i, hi, hf⟩
        exact ⟨i + 1, by simpa using Nat.succ_lt_succ hi, by
          rwa [show k + (i + 1) = k + 1 + i by omega]⟩
      · rintro ⟨i, hi, hf⟩
        cases i with
        | zero => exact absurd (by simpa using hf) h
        | succ j =>
          exact ⟨j, by simpa using Nat.lt_of_succ_lt_succ hi, by
            rwa [show k + 1 + j = k + (j + 1) by omega]⟩

/-- C9: whatever the packaging steps write and whichever of them raises,
the finally clause removes the scratch directory on both the success and
the failure exit, so it is absent afterwards; packaging reports failure
exactly when some step failed. -/
theorem c9_cleanup (fails : Nat → Bool) (stepFiles : List (List (List Char))) :
    (generateEpub fails stepFiles).2 = none ∧
    ((generateEpub fails stepFiles).1 = false ↔
      ∃ i, i < stepFiles.length ∧ fails i = true) := by
  constructor
  · unfold generateEpub
    cases runEpubSteps fails stepFiles 0 ["META-INF".data, "OEBPS".data, "OEBPS/images".data] with
    | mk ok temp => rfl
  · unfold generateEpub
    have h := runEpubSteps_ok stepFiles fails 0
      ["META-INF".data, "OEBPS".data, "OEBPS/images".data]
    simpa using h

/-! ### Claim C6 -/

/-- C6 counterexample: the renderer drops blank lines, so the chapter page
generated from a body with an internal blank line is byte-identical to the
page generated without it — nothing marks the blank position in the
markup. -/
theorem c6_blank_line_counterexample :
    renderParagraphs "a\n\nb".data = ["<p>a</p>".data, "<p>b</p>".data] ∧
    renderParagraphs "a\n\nb".data = renderParagraphs "a\nb".data ∧
    chapterXhtml "T".data ⟨"C1".data, "a\n\nb".data⟩ 0 =
      chapterXhtml "T".data ⟨"C1".data, "a\nb".data⟩ 0 := by
  have h : renderParagraphs "a\n\nb".data = renderParagraphs "a\nb".data := by decide
  refine ⟨by decide, h, ?_⟩
  unfold chapterXhtml chapterXhtmlRaw
  rw [h]

/-- C6 (amended): a blank line never triggers a chapter boundary and is
stored as a bare newline in the accumulator, preserving the paragraph gap
in the stored content; the renderer emits one paragraph element per
non-blank line and nothing for the blank line itself, so inserting a blank
line leaves the page markup unchanged. -/
theorem c6_blank_line_handling (st : SegState) (rawLine a b : List Char)
    (h : pyStrip rawLine = []) :
    segStep st rawLine = { st with currentChapter := st.currentChapter ++ ['\n'] } ∧
    (segStep st rawLine).chapters = st.chapters ∧
    (segStep st rawLine).chapterTitle = st.chapterTitle ∧
    renderParagraphs (a ++ '\n' :: '\n' :: b) = renderParagraphs (a ++ '\n' :: b) := by
  refine ⟨segStep_blank st h, by rw [segStep_blank st h], by rw [segStep_blank st h], ?_⟩
  unfold renderParagraphs
  have h1 : splitNl (a ++ '\n' :: '\n' :: b) = splitNl a ++ [] :: splitNl b := by
    rw [splitNl_append, splitNl_cons, if_pos rfl]
  have h2 : splitNl (a ++ '\n' :: b) = splitNl a ++ splitNl b := splitNl_append a b
  rw [h1, h2, List.filterMap_append, List.filterMap_append, List.filterMap_cons]
  rfl

/-- Witness for C6: a concrete blank-line step and a concrete blank-line
insertion into a rendered body. -/
theorem c6_blank_line_handling_witness :
    segStep ⟨[], "前言".data, "x\n".data⟩ "  ".data = ⟨[], "前言".data, "x\n\n".data⟩ ∧
    renderParagraphs ("a".data ++ '\n' :: '\n' :: "b".data) =
      renderParagraphs ("a".data ++ '\n' :: "b".data) := by
  have h := c6_blank_line_handling ⟨[], "前言".data, "x\n".data⟩ "  ".data "a".data "b".data
    (by decide)
  refine ⟨?_, h.2.2.2⟩
  rw [h.1]
  decide

/-! ### Claim C8 -/

/-- C8 counterexample: a first line equal to the constructor default is
non-empty after trimming, yet the file stem replaces it as the title. -/
theorem c8_title_counterexample :
    pyStrip (firstLine "未命名小说\nbody".data) ≠ [] ∧
    extractTitle "未命名小说\nbody".data "mybook".data = "mybook".data ∧
    extractTitle "未命名小说\nbody".data "mybook".data ≠
      pyStrip (firstLine "未命名小说\nbody".data) := by
  refine ⟨by decide, by decide, by decide⟩

/-- C8 (amended): the trimmed first line becomes the title, except that the
non-empty file stem replaces it when it is empty or equals the constructor
default title; with an empty stem the trimmed first line stands even
then. -/
theorem c8_title_fallback (raw stem : List Char) :
    (pyStrip (firstLine raw) ≠ [] → pyStrip (firstLine raw) ≠ defaultBookTitle →
      extractTitle raw stem = pyStrip (firstLine raw)) ∧
    ((pyStrip (firstLine raw) = [] ∨ pyStrip (firstLine raw) = defaultBookTitle) →
      stem ≠ [] → extractTitle raw stem = stem) ∧
    ((pyStrip (firstLine raw) = [] ∨ pyStrip (firstLine raw) = defaultBookTitle) →
      stem = [] → extractTitle raw stem = pyStrip (firstLine raw)) := by
  refine ⟨?_, ?_, ?_⟩
  · intro h1 h2
    simp only [extractTitle]
    rw [if_neg (by rintro (h | h); exact h1 h; exact h2 h)]
  · intro h1 h2
    simp only [extractTitle]
    rw [if_pos h1, if_neg h2]
  · intro h1 h2
    simp only [extractTitle]
    rw [if_pos h1, if_pos h2]

/-- Witness for C8 on the three branches: ordinary first line, default-named
first line with a stem, and blank first line without a stem. -/
theorem c8_title_fallback_witness :
    extractTitle "Title\nb".data "f".data = pyStrip (firstLine "Title\nb".data) ∧
    extractTitle "未命名小说\nb".data "f".data = "f".data ∧
    extractTitle "\nb".data "".data = pyStrip (firstLine "\nb".data) :=
  ⟨(c8_title_fallback "Title\nb".data "f".data).1 (by decide) (by decide),
   (c8_title_fallback "未命名小说\nb".data "f".data).2.1 (by decide) (by decide),
   (c8_title_fallback "\nb".data "".data).2.2 (by decide) (by decide)⟩

/-! ### Claim C7 -/

theorem infixPeel (u : List Char) {v s : List Char} (h : ∃ x y, v = x ++ (s ++ y)) :
    ∃ x y, u ++ v = x ++ (s ++ y) := by
  rcases h with ⟨x, y, hh⟩
  exact ⟨u ++ x, y, by rw [hh]; simp [List.append_assoc]⟩

theorem infixHere (u s v : List Char) : ∃ x y, u ++ (s ++ v) = x ++ (s ++ y) :=
  ⟨u, v, rfl⟩

theorem infixHead (s v : List Char) : ∃ x y, s ++ v = x ++ (s ++ y) :=
  ⟨[], v, by simp⟩

set_option maxRecDepth 5000 in
/-- C7 counterexample: a title carrying angle-bracket markup is stripped
by _sanitize_title, yet the cover page and the legacy navigation embed it
with the markup intact. -/
theorem c7_title_counterexample :
    sanitizeTitle "<b>T</b>".data = "T".data ∧
    isSub "<b>T</b>".data (coverXhtml "<b>T</b>".data "A".data) = true ∧
    isSub "<b>T</b>".data (tocNcx "<b>T</b>".data "id".data []) = true := by
  refine ⟨by decide, by decide, by decide⟩

set_option maxRecDepth 5000 in
/-- C7 (amended): only the package-metadata title element embeds the
tag-stripped title; the legacy navigation, the modern navigation, the cover
page template and the first chapter page template all embed the raw title
text, and the sanitize pass the cover and chapter pages go through does not
strip such markup, as the cover page for a tagged title shows. -/
theorem c7_title_sanitization (guessMime : List Char → Option (List Char))
    (t author bookId language date : List Char) (coverImage : Option Image)
    (images : List Image) (chapters : List Chapter) (a : List Char) (ch : Chapter) :
    (∃ x y, contentOpf guessMime t author bookId language date coverImage images chapters =
      x ++ sanitizeTitle t ++ y) ∧
    (∃ x y, tocNcx t bookId chapters = x ++ t ++ y) ∧
    (∃ x y, navXhtml t chapters = x ++ t ++ y) ∧
    (∃ x y, coverXhtmlRaw t a = x ++ t ++ y) ∧
    (∃ x y, chapterXhtmlRaw t ch 0 = x ++ t ++ y) ∧
    isSub "<b>T</b>".data (coverXhtml "<b>T</b>".data "A".data) = true := by
  refine ⟨?_, ?_, ?_, ?_, ?_, by decide⟩
  · unfold contentOpf
    simp only [List.append_assoc]
    exact infixHere _ _ _
  · unfold tocNcx
    simp only [List.append_assoc]
    apply infixPeel
    apply infixPeel
    apply infixPeel
    exact infixHead _ _
  · unfold navXhtml
    simp only [List.append_assoc]
    exact infixHere _ _ _
  · unfold coverXhtmlRaw
    simp only [List.append_assoc]
    exact infixHere _ _ _
  · unfold chapterXhtmlRaw
    rw [if_pos (rfl : (0 : Nat) = 0), if_pos (rfl : (0 : Nat) = 0)]
    simp only [List.append_assoc]
    apply infixPeel
    apply infixPeel
    apply infixPeel
    apply infixPeel
    apply infixPeel
    apply infixPeel
    exact infixHead _ _

end Epub
